import Mathlib

/-!
Shallow embedding of ttk::HarmonicField (core/base/harmonicField/HarmonicField.cpp).

Machine scalars (the template parameter scalarFieldType, float/double) are
modelled by ℚ; SimplexId by ℤ; arrays by lists or functions out of ℕ.
The external collaborators (the Laplacian builders declared elsewhere and the
Eigen solve call) are passed in as oracle parameters: the code under
verification only forwards their results, and every claim below is about the
forwarding code itself.
-/

namespace TTK

/-- Internal solving strategy (ttk::SolvingMethodType). -/
inductive SolvingMethodType where
  | Cholesky
  | Iterative

/-- User-facing solving method (ttk::SolvingMethodUserType). -/
inductive SolvingMethodUserType where
  | Auto
  | Cholesky
  | Iterative

/-- The four Eigen::ComputationInfo outcome kinds. -/
inductive ComputationInfo where
  | Success
  | NumericalIssue
  | NoConvergence
  | InvalidInput

/-- Integer code of an Eigen::ComputationInfo value (Success = 0, NumericalIssue = 1,
NoConvergence = 2, InvalidInput = 3), as produced by the solve wrapper's int result. -/
def infoCode : ComputationInfo → ℤ
  | ComputationInfo.Success => 0
  | ComputationInfo.NumericalIssue => 1
  | ComputationInfo.NoConvergence => 2
  | ComputationInfo.InvalidInput => 3

/-- Messages passed to dMsg by execute, abstracted from their strings. -/
inductive LogMsg where
  | beginning
  | success
  | numericalIssue
  | noConvergence
  | invalidInput
  | ending (useCotanWeights : Bool) (sm : SolvingMethodType) (threads : ℕ)
  | eigenDisabled

/-- The log line emitted by the switch over Eigen::ComputationInfo. -/
def infoLogMsg : ComputationInfo → LogMsg
  | ComputationInfo.Success => LogMsg.success
  | ComputationInfo.NumericalIssue => LogMsg.numericalIssue
  | ComputationInfo.NoConvergence => LogMsg.noConvergence
  | ComputationInfo.InvalidInput => LogMsg.invalidInput

/-- The switch on static_cast of the solver result res: one message
for each of the four enum values, nothing for any other int. -/
def infoLog (res : ℤ) : List LogMsg :=
  if res = 0 then [LogMsg.success]
  else if res = 1 then [LogMsg.numericalIssue]
  else if res = 2 then [LogMsg.noConvergence]
  else if res = 3 then [LogMsg.invalidInput]
  else []

/-- Configuration and input state of a ttk::HarmonicField object at the time
execute is called: the fields vertexNumber_, edgeNumber_, useCotanWeights_,
solvingMethod_, logAlpha_, threadNumber_, plus the arrays behind the
sources_ pointer (constraintNumber_ SimplexIds) and the constraints_ pointer
(the scalar constraint values, read positionally). -/
structure HarmonicField where
  vertexNumber : ℕ
  edgeNumber : ℕ
  useCotanWeights : Bool
  solvingMethod : SolvingMethodUserType
  logAlpha : ℤ
  threadNumber : ℕ
  sources : List ℤ
  constraints : List ℚ

/-- Insertion into a sorted duplicate-free list: the effect of
std::set<SimplexId>::insert on the set's ordered contents. -/
def insertSorted (x : ℤ) : List ℤ → List ℤ
  | [] => [x]
  | y :: t => if x < y then x :: y :: t else if x = y then y :: t else y :: insertSorted x t

/-- identifiersVec from execute: every identifiers[i] for i < constraintNumber_
is inserted into a std::set, then the set's ascending contents are copied
into a vector. -/
def identifiersVec (ids : List ℤ) : List ℤ :=
  ids.foldl (fun acc i => insertSorted i acc) []

/-- SparseVector::coeffRef assignment on the explicit entry list: overwrite the
entry at index i when present, otherwise create it. -/
def coeffSet : List (ℤ × ℚ) → ℤ → ℚ → List (ℤ × ℚ)
  | [], i, v => [(i, v)]
  | (j, w) :: t, i, v => if j = i then (j, v) :: t else (j, w) :: coeffSet t i v

/-- Value read of a sparse vector given by its explicit entry list: the stored
coefficient when the index has an entry, 0 otherwise. -/
def spVecAt : List (ℤ × ℚ) → ℤ → ℚ
  | [], _ => 0
  | (j, w) :: t, i => if j = i then w else spVecAt t i

/-- The constraints SpVec assembled by execute: for each position i below
identifiersVec.size(), constraints.coeffRef(identifiersVec[i]) = sf[i]. -/
def constraintEntries (ids : List ℤ) (sf : List ℚ) : List (ℤ × ℚ) :=
  (List.range (identifiersVec ids).length).foldl
    (fun acc k => coeffSet acc ((identifiersVec ids).getD k 0) (sf.getD k 0)) []

/-- Sparse matrix with explicit dimensions, as an entry function. -/
structure SpMatT where
  rows : ℕ
  cols : ℕ
  entry : ℤ → ℤ → ℚ

/-- Eigen::SparseMatrix::setFromTriplets semantics: the entry at (r, c) is the
sum of the values of all triplets addressed at (r, c). -/
def matFromTriplets (ts : List (ℤ × ℤ × ℚ)) (r c : ℤ) : ℚ :=
  ((ts.filter fun t => decide (t.1 = r ∧ t.2.1 = c)).map fun t => t.2.2).sum

/-- The penalty triplets built by execute: one diagonal triplet
(i, i, alpha) per element i of identifiersVec, alpha = pow10(logAlpha_). -/
def penaltyTriplets (ids : List ℤ) (logAlpha : ℤ) : List (ℤ × ℤ × ℚ) :=
  (identifiersVec ids).map (fun i => (i, i, (10 : ℚ) ^ logAlpha))

/-- The penalty SpMat of execute: a vertexNumber x vertexNumber sparse matrix
filled from the diagonal penalty triplets. -/
def penaltyMat (hf : HarmonicField) : SpMatT :=
  SpMatT.mk hf.vertexNumber hf.vertexNumber
    (matFromTriplets (penaltyTriplets hf.sources hf.logAlpha))

/-- ttk::HarmonicField::findBestSolver: compare 2 * edgeNumber_ + vertexNumber_
(approximate Laplacian nonzero count) against the threshold 500000. -/
def findBestSolver (hf : HarmonicField) : SolvingMethodType :=
  if 2 * hf.edgeNumber + hf.vertexNumber > 500000 then SolvingMethodType.Iterative
  else SolvingMethodType.Cholesky

/-- The switch on solvingMethod_ in execute: Auto defers to findBestSolver,
explicit choices are honored. -/
def chosenMethod (hf : HarmonicField) : SolvingMethodType :=
  match hf.solvingMethod with
  | SolvingMethodUserType.Auto => findBestSolver hf
  | SolvingMethodUserType.Cholesky => SolvingMethodType.Cholesky
  | SolvingMethodUserType.Iterative => SolvingMethodType.Iterative

/-- Oracle for the external solve template: given the chosen strategy, the
Laplacian, the penalty matrix and the constraints vector, it returns the int
result res and the dense view of the solution matrix sol. -/
def Solver : Type :=
  SolvingMethodType → SpMatT → SpMatT → List (ℤ × ℚ) → ℤ × (ℕ → ℚ)

/-- The Laplacian used by execute: compute_laplacian_with_cotan_weights when
useCotanWeights_ is set, compute_laplacian otherwise. Both builders are
external to this translation unit, so their results are parameters. -/
def lapOf (lapCotan lapCombin : SpMatT) (hf : HarmonicField) : SpMatT :=
  if hf.useCotanWeights then lapCotan else lapCombin

/-- The single solve call made by execute, with the arguments it assembles. -/
def solverResult (lapCotan lapCombin : SpMatT) (solver : Solver) (hf : HarmonicField) :
    ℤ × (ℕ → ℚ) :=
  solver (chosenMethod hf) (lapOf lapCotan lapCombin hf) (penaltyMat hf)
    (constraintEntries hf.sources hf.constraints)

/-- Observable result of one execute call: the returned int, the final state of
the caller-owned output buffer, and the messages handed to dMsg. -/
structure ExecResult where
  status : ℤ
  output : ℕ → ℚ
  log : List LogMsg

/-- The TTK_ENABLE_EIGEN branch of ttk::HarmonicField::execute: assemble the
system, solve once with the chosen strategy, log the outcome, and write
outputScalarField[i] = -solDense(i, 0) for every i < vertexNumber_. -/
def executeE (lapCotan lapCombin : SpMatT) (solver : Solver) (hf : HarmonicField)
    (out0 : ℕ → ℚ) : ExecResult :=
  let rs := solverResult lapCotan lapCombin solver hf
  ExecResult.mk 0
    (fun i => if i < hf.vertexNumber then -(rs.2 i) else out0 i)
    (LogMsg.beginning ::
      (infoLog rs.1 ++ [LogMsg.ending hf.useCotanWeights (chosenMethod hf) hf.threadNumber]))

/-- ttk::HarmonicField::execute: the Eigen branch when the dependency is
compiled in, otherwise a warning with the buffer left untouched; the function
returns 0 in both branches. -/
def execute (eigenEnabled : Bool) (lapCotan lapCombin : SpMatT) (solver : Solver)
    (hf : HarmonicField) (out0 : ℕ → ℚ) : ExecResult :=
  if eigenEnabled then executeE lapCotan lapCombin solver hf out0
  else ExecResult.mk 0 out0 [LogMsg.eigenDisabled]

/-! Helper lemmas about the deduplicating sorted insertion. -/

theorem mem_insertSorted (x a : ℤ) (l : List ℤ) : a ∈ insertSorted x l ↔ a = x ∨ a ∈ l := by
  induction l with
  | nil => simp [insertSorted]
  | cons y t ih =>
    by_cases h1 : x < y
    · simp only [insertSorted, if_pos h1, List.mem_cons]
    · by_cases h2 : x = y
      · subst h2
        rw [insertSorted, if_neg h1, if_pos rfl]
        simp only [List.mem_cons]
        tauto
      · simp only [insertSorted, if_neg h1, if_neg h2, List.mem_cons, ih]
        tauto

theorem sorted_insertSorted (x : ℤ) (l : List ℤ) (h : l.Sorted (· < ·)) :
    (insertSorted x l).Sorted (· < ·) := by
  induction l with
  | nil => simp [insertSorted]
  | cons y t ih =>
    rw [List.sorted_cons] at h
    by_cases h1 : x < y
    · rw [insertSorted, if_pos h1]
      refine List.sorted_cons.mpr ⟨?_, List.sorted_cons.mpr ⟨h.1, h.2⟩⟩
      intro b hb
      rcases List.mem_cons.mp hb with rfl | hbt
      · exact h1
      · exact lt_trans h1 (h.1 b hbt)
    · by_cases h2 : x = y
      · rw [insertSorted, if_neg h1, if_pos h2]
        exact List.sorted_cons.mpr h
      · have hyx : y < x := lt_of_le_of_ne (not_lt.mp h1) (Ne.symm h2)
        rw [insertSorted, if_neg h1, if_neg h2]
        refine List.sorted_cons.mpr ⟨?_, ih h.2⟩
        intro b hb
        rcases (mem_insertSorted x b t).mp hb with rfl | hbt
        · exact hyx
        · exact h.1 b hbt

theorem sorted_foldl_insert (ids : List ℤ) (acc : List ℤ) (h : acc.Sorted (· < ·)) :
    (ids.foldl (fun a i => insertSorted i a) acc).Sorted (· < ·) := by
  induction ids generalizing acc with
  | nil => exact h
  | cons i t ih => exact ih _ (sorted_insertSorted i acc h)

theorem sorted_identifiersVec (ids : List ℤ) : (identifiersVec ids).Sorted (· < ·) :=
  sorted_foldl_insert ids [] (by simp)

theorem mem_foldl_insert (ids : List ℤ) (acc : List ℤ) (a : ℤ) :
    a ∈ ids.foldl (fun ac i => insertSorted i ac) acc ↔ a ∈ acc ∨ a ∈ ids := by
  induction ids generalizing acc with
  | nil => simp
  | cons i t ih =>
    simp only [List.foldl_cons, ih, mem_insertSorted, List.mem_cons]
    tauto

theorem mem_identifiersVec (ids : List ℤ) (a : ℤ) : a ∈ identifiersVec ids ↔ a ∈ ids := by
  rw [identifiersVec, mem_foldl_insert]
  simp

theorem nodup_identifiersVec (ids : List ℤ) : (identifiersVec ids).Nodup :=
  (sorted_identifiersVec ids).nodup

theorem toFinset_identifiersVec (ids : List ℤ) :
    (identifiersVec ids).toFinset = ids.toFinset := by
  apply Finset.ext
  intro a
  simp [List.mem_toFinset, mem_identifiersVec]

theorem length_identifiersVec (ids : List ℤ) :
    (identifiersVec ids).length = ids.dedup.length := by
  rw [← List.card_toFinset, ← toFinset_identifiersVec,
    List.toFinset_card_of_nodup (nodup_identifiersVec ids)]

theorem length_identifiersVec_le (ids : List ℤ) :
    (identifiersVec ids).length ≤ ids.length := by
  rw [length_identifiersVec]
  exact (List.dedup_sublist ids).length_le

theorem length_identifiersVec_lt (ids : List ℤ) (h : ¬ ids.Nodup) :
    (identifiersVec ids).length < ids.length := by
  rw [length_identifiersVec]
  refine lt_of_le_of_ne (List.dedup_sublist ids).length_le ?_
  intro hlen
  exact h (List.dedup_eq_self.mp ((List.dedup_sublist ids).eq_of_length hlen))

/-! Helper lemmas about the sparse constraint vector. -/

theorem coeffSet_of_not_mem (l : List (ℤ × ℚ)) (i : ℤ) (v : ℚ)
    (h : i ∉ l.map Prod.fst) : coeffSet l i v = l ++ [(i, v)] := by
  induction l with
  | nil => rfl
  | cons hd t ih =>
    obtain ⟨j, w⟩ := hd
    simp only [List.map_cons, List.mem_cons] at h
    push_neg at h
    rw [coeffSet, if_neg (fun hji => h.1 hji.symm), ih h.2]
    rfl

theorem foldl_coeffSet_range (iv : List ℤ) (sf : List ℚ) (hnd : iv.Nodup)
    (n : ℕ) (hn : n ≤ iv.length) :
    (List.range n).foldl (fun acc k => coeffSet acc (iv.getD k 0) (sf.getD k 0)) [] =
      (List.range n).map (fun k => (iv.getD k 0, sf.getD k 0)) := by
  induction n with
  | zero => rfl
  | succ n ih =>
    rw [List.range_succ, List.foldl_append, List.map_append,
      ih (Nat.le_of_succ_le hn)]
    simp only [List.foldl_cons, List.foldl_nil, List.map_cons, List.map_nil]
    rw [coeffSet_of_not_mem]
    rw [List.map_map]
    intro hmem
    simp only [List.mem_map, Function.comp, List.mem_range] at hmem
    obtain ⟨k, hk, hkeq⟩ := hmem
    have hsn : n < iv.length := hn
    have hsk : k < iv.length := lt_trans hk hsn
    rw [iv.getD_eq_getElem 0 hsk, iv.getD_eq_getElem 0 hsn] at hkeq
    have := (hnd.getElem_inj_iff).mp hkeq
    omega

theorem constraintEntries_eq_map (ids : List ℤ) (sf : List ℚ) :
    constraintEntries ids sf =
      (List.range (identifiersVec ids).length).map
        (fun k => ((identifiersVec ids).getD k 0, sf.getD k 0)) :=
  foldl_coeffSet_range (identifiersVec ids) sf (nodup_identifiersVec ids) _ le_rfl

theorem range_map_getD (l : List ℤ) :
    (List.range l.length).map (fun k => l.getD k 0) = l := by
  apply List.ext_getElem
  · simp
  · intro i h1 h2
    simp only [List.getElem_map, List.getElem_range]
    exact l.getD_eq_getElem 0 h2

theorem constraintEntries_fst (ids : List ℤ) (sf : List ℚ) :
    (constraintEntries ids sf).map Prod.fst = identifiersVec ids := by
  rw [constraintEntries_eq_map, List.map_map]
  exact range_map_getD (identifiersVec ids)

theorem spVecAt_of_not_mem (l : List (ℤ × ℚ)) (j : ℤ) (h : j ∉ l.map Prod.fst) :
    spVecAt l j = 0 := by
  induction l with
  | nil => rfl
  | cons hd t ih =>
    obtain ⟨i, w⟩ := hd
    simp only [List.map_cons, List.mem_cons] at h
    push_neg at h
    rw [spVecAt, if_neg (fun hij => h.1 hij.symm)]
    exact ih h.2

theorem spVecAt_get (l : List (ℤ × ℚ)) (hnd : (l.map Prod.fst).Nodup)
    (k : ℕ) (hk : k < l.length) :
    spVecAt l (l.get ⟨k, hk⟩).1 = (l.get ⟨k, hk⟩).2 := by
  induction l generalizing k with
  | nil => exact absurd hk (Nat.not_lt_zero k)
  | cons hd t ih =>
    obtain ⟨j, w⟩ := hd
    simp only [List.map_cons, List.nodup_cons] at hnd
    cases k with
    | zero => simp [spVecAt]
    | succ k =>
      have hk' : k < t.length := Nat.lt_of_succ_lt_succ hk
      have hget : ((j, w) :: t).get ⟨k + 1, hk⟩ = t.get ⟨k, hk'⟩ := rfl
      rw [hget, spVecAt]
      have hmem : (t.get ⟨k, hk'⟩).1 ∈ t.map Prod.fst :=
        List.mem_map_of_mem Prod.fst (t.get_mem _ _)
      rw [if_neg (fun hj => hnd.1 (by rw [hj]; exact hmem))]
      exact ih hnd.2 k hk'

/-! Helper lemma about the diagonal penalty matrix. -/

theorem matFromTriplets_diag (l : List ℤ) (a : ℚ) (hnd : l.Nodup) (r c : ℤ) :
    matFromTriplets (l.map (fun i => (i, i, a))) r c =
      if r = c ∧ r ∈ l then a else 0 := by
  induction l with
  | nil => simp [matFromTriplets]
  | cons x t ih =>
    simp only [List.nodup_cons] at hnd
    simp only [List.map_cons]
    rw [matFromTriplets, List.filter_cons]
    by_cases hx : x = r ∧ x = c
    · obtain ⟨hxr, hxc⟩ := hx
      subst hxr
      subst hxc
      have hdec : decide ((x, x, a).1 = x ∧ (x, x, a).2.1 = x) = true := by simp
      rw [if_pos hdec]
      have hrest : (t.map (fun i => (i, i, a))).filter
          (fun tr => decide (tr.1 = x ∧ tr.2.1 = x)) = [] := by
        apply List.filter_eq_nil_iff.mpr
        intro tr htr
        simp only [List.mem_map] at htr
        obtain ⟨i, hi, rfl⟩ := htr
        simp only [decide_eq_true_eq, not_and]
        intro hir _
        exact hnd.1 (hir ▸ hi)
      simp only [List.map_cons, List.sum_cons, hrest, List.map_nil, List.sum_nil,
        add_zero]
      simp
    · have hdec : decide ((x, x, a).1 = r ∧ (x, x, a).2.1 = c) = false := by
        simpa using hx
      rw [if_neg (by simp [hdec])]
      rw [← matFromTriplets, ih hnd.2]
      by_cases hrc : r = c ∧ r ∈ t
      · rw [if_pos hrc, if_pos ⟨hrc.1, List.mem_cons_of_mem x hrc.2⟩]
      · rw [if_neg hrc]
        rw [if_neg]
        intro hcon
        rcases List.mem_cons.mp hcon.2 with rfl | hrt
        · exact hx ⟨rfl, hcon.1⟩
        · exact hrc ⟨hcon.1, hrt⟩

/-- Claim C1: the constraint assembler deduplicates the input vertex ids into a
sorted set of distinct ids, and the k-th distinct id in ascending order is
assigned the constraint value at position k of the input value array
(index-by-position). The sparse constraint vector has an explicitly stored
(structurally nonzero) entry exactly at each distinct id, its entry at the
k-th smallest distinct id is the k-th input value, and it reads 0 at every
index outside the distinct ids. -/
theorem constraint_assembler_dedup_sorted (ids : List ℤ) (sf : List ℚ)
    (hlen : sf.length = ids.length) :
    (identifiersVec ids).Sorted (· < ·) ∧
    (∀ a, a ∈ identifiersVec ids ↔ a ∈ ids) ∧
    (identifiersVec ids).length ≤ sf.length ∧
    (constraintEntries ids sf).map Prod.fst = identifiersVec ids ∧
    (∀ k (hk : k < (identifiersVec ids).length),
      spVecAt (constraintEntries ids sf) ((identifiersVec ids).get ⟨k, hk⟩) =
        sf.getD k 0) ∧
    (∀ j, j ∉ ids → spVecAt (constraintEntries ids sf) j = 0) := by
  refine ⟨sorted_identifiersVec ids, fun a => mem_identifiersVec ids a,
    hlen ▸ length_identifiersVec_le ids, constraintEntries_fst ids sf, ?_, ?_⟩
  · intro k hk
    have hlenE : (constraintEntries ids sf).length = (identifiersVec ids).length := by
      rw [constraintEntries_eq_map]
      simp
    have hk' : k < (constraintEntries ids sf).length := by
      rw [hlenE]
      exact hk
    have hnd : ((constraintEntries ids sf).map Prod.fst).Nodup := by
      rw [constraintEntries_fst]
      exact nodup_identifiersVec ids
    have h1 := spVecAt_get (constraintEntries ids sf) hnd k hk'
    have h2 : (constraintEntries ids sf).get ⟨k, hk'⟩ =
        ((identifiersVec ids).getD k 0, sf.getD k 0) := by
      simp [constraintEntries_eq_map]
    rw [h2] at h1
    have h3 : (identifiersVec ids).get ⟨k, hk⟩ = (identifiersVec ids).getD k 0 := by
      rw [List.get_eq_getElem]
      exact ((identifiersVec ids).getD_eq_getElem 0 hk).symm
    rw [h3]
    exact h1
  · intro j hj
    apply spVecAt_of_not_mem
    rw [constraintEntries_fst]
    intro hmem
    exact hj ((mem_identifiersVec ids j).mp hmem)

/-- Concrete instantiation of the C1 theorem at ids = [2, 0, 2], sf = [4, 6, 8]. -/
theorem constraint_assembler_dedup_sorted_witness :
    ([4, 6, 8] : List ℚ).length = ([2, 0, 2] : List ℤ).length ∧
    ((identifiersVec [2, 0, 2]).Sorted (· < ·) ∧
    (∀ a, a ∈ identifiersVec [2, 0, 2] ↔ a ∈ ([2, 0, 2] : List ℤ)) ∧
    (identifiersVec [2, 0, 2]).length ≤ ([4, 6, 8] : List ℚ).length ∧
    (constraintEntries [2, 0, 2] [4, 6, 8]).map Prod.fst = identifiersVec [2, 0, 2] ∧
    (∀ k (hk : k < (identifiersVec [2, 0, 2]).length),
      spVecAt (constraintEntries [2, 0, 2] [4, 6, 8])
        ((identifiersVec [2, 0, 2]).get ⟨k, hk⟩) = ([4, 6, 8] : List ℚ).getD k 0) ∧
    (∀ j, j ∉ ([2, 0, 2] : List ℤ) →
      spVecAt (constraintEntries [2, 0, 2] [4, 6, 8]) j = 0)) :=
  ⟨rfl, constraint_assembler_dedup_sorted [2, 0, 2] [4, 6, 8] rfl⟩

/-- Claim C2: with solvingMethod Auto, the chosen strategy is Iterative exactly
when 2 * edgeNumber + vertexNumber exceeds 500000, and Cholesky (Direct)
exactly when that score is at or below 500000. -/
theorem auto_solver_selection (hf : HarmonicField)
    (h : hf.solvingMethod = SolvingMethodUserType.Auto) :
    (chosenMethod hf = SolvingMethodType.Iterative ↔
      2 * hf.edgeNumber + hf.vertexNumber > 500000) ∧
    (chosenMethod hf = SolvingMethodType.Cholesky ↔
      2 * hf.edgeNumber + hf.vertexNumber ≤ 500000) := by
  have hc : chosenMethod hf = findBestSolver hf := by
    rw [chosenMethod, h]
  rw [hc, findBestSolver]
  by_cases hgt : 2 * hf.edgeNumber + hf.vertexNumber > 500000
  · rw [if_pos hgt]
    refine ⟨⟨fun _ => hgt, fun _ => rfl⟩, ?_, ?_⟩
    · intro hEq
      exact SolvingMethodType.noConfusion hEq
    · intro hle
      exact absurd hle (not_le.mpr hgt)
  · rw [if_neg hgt]
    push_neg at hgt
    refine ⟨⟨?_, ?_⟩, fun _ => hgt, fun _ => rfl⟩
    · intro hEq
      exact SolvingMethodType.noConfusion hEq
    · intro hlt
      exact absurd hlt (not_lt.mpr hgt)

/-- Concrete instantiation of the C2 theorem at the boundary score
2 * 0 + 500000 = 500000, where Auto selects Cholesky (Direct). -/
theorem auto_solver_selection_witness :
    (HarmonicField.mk 500000 0 true SolvingMethodUserType.Auto 5 1 [] []).solvingMethod
      = SolvingMethodUserType.Auto ∧
    ((chosenMethod (HarmonicField.mk 500000 0 true SolvingMethodUserType.Auto 5 1 [] [])
        = SolvingMethodType.Iterative ↔
      2 * (HarmonicField.mk 500000 0 true SolvingMethodUserType.Auto 5 1 [] []).edgeNumber +
        (HarmonicField.mk 500000 0 true SolvingMethodUserType.Auto 5 1 [] []).vertexNumber
          > 500000) ∧
    (chosenMethod (HarmonicField.mk 500000 0 true SolvingMethodUserType.Auto 5 1 [] [])
        = SolvingMethodType.Cholesky ↔
      2 * (HarmonicField.mk 500000 0 true SolvingMethodUserType.Auto 5 1 [] []).edgeNumber +
        (HarmonicField.mk 500000 0 true SolvingMethodUserType.Auto 5 1 [] []).vertexNumber
          ≤ 500000)) :=
  ⟨rfl, auto_solver_selection (HarmonicField.mk 500000 0 true SolvingMethodUserType.Auto 5 1 [] []) rfl⟩

/-- Claim C3: for every configuration, input, Laplacian, solver outcome and
build gate, the top-level execute call returns the integer status 0. -/
theorem execute_returns_zero (eigenEnabled : Bool) (lapCotan lapCombin : SpMatT)
    (solver : Solver) (hf : HarmonicField) (out0 : ℕ → ℚ) :
    (execute eigenEnabled lapCotan lapCombin solver hf out0).status = 0 := by
  cases eigenEnabled <;> rfl

/-- Claim C4: the result materializer writes output[i] = -x[i] for every vertex
index i below vertexNumber, where x is the dense view of the solver's
solution. -/
theorem output_is_negated_solution (lapCotan lapCombin : SpMatT) (solver : Solver)
    (hf : HarmonicField) (out0 : ℕ → ℚ) (i : ℕ) (hi : i < hf.vertexNumber) :
    (executeE lapCotan lapCombin solver hf out0).output i =
      -((solverResult lapCotan lapCombin solver hf).2 i) := by
  simp [executeE, hi]

/-- Concrete instantiation of the C4 theorem at vertex 0 of a 1-vertex field. -/
theorem output_is_negated_solution_witness :
    0 < (HarmonicField.mk 1 0 true SolvingMethodUserType.Auto 5 1 [] []).vertexNumber ∧
    (executeE (SpMatT.mk 0 0 (fun _ _ => 0)) (SpMatT.mk 0 0 (fun _ _ => 0))
        (fun _ _ _ _ => (0, fun _ => 0))
        (HarmonicField.mk 1 0 true SolvingMethodUserType.Auto 5 1 [] [])
        (fun _ => 0)).output 0 =
      -((solverResult (SpMatT.mk 0 0 (fun _ _ => 0)) (SpMatT.mk 0 0 (fun _ _ => 0))
        (fun _ _ _ _ => (0, fun _ => 0))
        (HarmonicField.mk 1 0 true SolvingMethodUserType.Auto 5 1 [] [])).2 0) :=
  ⟨by decide, output_is_negated_solution (SpMatT.mk 0 0 (fun _ _ => 0))
    (SpMatT.mk 0 0 (fun _ _ => 0)) (fun _ _ _ _ => (0, fun _ => 0))
    (HarmonicField.mk 1 0 true SolvingMethodUserType.Auto 5 1 [] [])
    (fun _ => 0) 0 (by decide)⟩

/-- Claim C5: the penalty matrix is vertexNumber x vertexNumber, its diagonal
entry is alpha = 10 ^ logAlpha exactly at each distinct constrained vertex
index and 0 at every other index, and every off-diagonal entry is 0. -/
theorem penalty_matrix_diagonal (hf : HarmonicField) (r c : ℤ) :
    (penaltyMat hf).rows = hf.vertexNumber ∧
    (penaltyMat hf).cols = hf.vertexNumber ∧
    (penaltyMat hf).entry r c =
      if r = c ∧ r ∈ hf.sources then (10 : ℚ) ^ hf.logAlpha else 0 := by
  refine ⟨rfl, rfl, ?_⟩
  show matFromTriplets (penaltyTriplets hf.sources hf.logAlpha) r c = _
  rw [penaltyTriplets, matFromTriplets_diag _ _ (nodup_identifiersVec hf.sources)]
  simp only [mem_identifiersVec]

/-- Claim C6: when the sparse-solver dependency is compiled out, execute is a
no-op that logs a warning and leaves the caller's output buffer entirely
unchanged, returning 0. -/
theorem eigen_disabled_noop (lapCotan lapCombin : SpMatT) (solver : Solver)
    (hf : HarmonicField) (out0 : ℕ → ℚ) :
    (execute false lapCotan lapCombin solver hf out0).output = out0 ∧
    (execute false lapCotan lapCombin solver hf out0).log = [LogMsg.eigenDisabled] ∧
    (execute false lapCotan lapCombin solver hf out0).status = 0 :=
  ⟨rfl, rfl, rfl⟩

/-- Claim C7: each of the four solver outcome kinds, when reported by the solve
call, puts its log line into the log, and for every outcome the output buffer
is materialized from that single solve call's solution unconditionally (no
retry with an alternate strategy). -/
theorem outcome_logged_then_materialize (lapCotan lapCombin : SpMatT) (solver : Solver)
    (hf : HarmonicField) (out0 : ℕ → ℚ) (info : ComputationInfo)
    (h : (solverResult lapCotan lapCombin solver hf).1 = infoCode info) :
    infoLogMsg info ∈ (executeE lapCotan lapCombin solver hf out0).log ∧
    (∀ i, (executeE lapCotan lapCombin solver hf out0).output i =
      if i < hf.vertexNumber then -((solverResult lapCotan lapCombin solver hf).2 i)
      else out0 i) := by
  have hlog : (executeE lapCotan lapCombin solver hf out0).log =
      LogMsg.beginning :: (infoLog (solverResult lapCotan lapCombin solver hf).1 ++
        [LogMsg.ending hf.useCotanWeights (chosenMethod hf) hf.threadNumber]) := rfl
  constructor
  · rw [hlog, h]
    cases info <;> simp [infoLog, infoCode, infoLogMsg]
  · intro i
    rfl

/-- Concrete instantiation of the C7 theorem with a solve call reporting
NoConvergence (code 2). -/
theorem outcome_logged_then_materialize_witness :
    (solverResult (SpMatT.mk 1 1 (fun _ _ => 0)) (SpMatT.mk 1 1 (fun _ _ => 0))
        (fun _ _ _ _ => (2, fun _ => 7))
        (HarmonicField.mk 1 0 false SolvingMethodUserType.Cholesky 5 1 [] [])).1 =
      infoCode ComputationInfo.NoConvergence ∧
    (infoLogMsg ComputationInfo.NoConvergence ∈
      (executeE (SpMatT.mk 1 1 (fun _ _ => 0)) (SpMatT.mk 1 1 (fun _ _ => 0))
        (fun _ _ _ _ => (2, fun _ => 7))
        (HarmonicField.mk 1 0 false SolvingMethodUserType.Cholesky 5 1 [] [])
        (fun _ => 0)).log ∧
    (∀ i, (executeE (SpMatT.mk 1 1 (fun _ _ => 0)) (SpMatT.mk 1 1 (fun _ _ => 0))
        (fun _ _ _ _ => (2, fun _ => 7))
        (HarmonicField.mk 1 0 false SolvingMethodUserType.Cholesky 5 1 [] [])
        (fun _ => 0)).output i =
      if i < (HarmonicField.mk 1 0 false SolvingMethodUserType.Cholesky 5 1 [] []).vertexNumber
      then -((solverResult (SpMatT.mk 1 1 (fun _ _ => 0)) (SpMatT.mk 1 1 (fun _ _ => 0))
        (fun _ _ _ _ => (2, fun _ => 7))
        (HarmonicField.mk 1 0 false SolvingMethodUserType.Cholesky 5 1 [] [])).2 i)
      else (fun _ => (0 : ℚ)) i)) :=
  ⟨rfl, outcome_logged_then_materialize (SpMatT.mk 1 1 (fun _ _ => 0))
    (SpMatT.mk 1 1 (fun _ _ => 0)) (fun _ _ _ _ => (2, fun _ => 7))
    (HarmonicField.mk 1 0 false SolvingMethodUserType.Cholesky 5 1 [] [])
    (fun _ => 0) ComputationInfo.NoConvergence rfl⟩

/-- Claim C8: with an empty constraint set, the penalty matrix has no nonzero
entry and the constraint vector is the zero vector (no stored entries, every
coefficient reads 0). -/
theorem empty_constraints_zero_system (hf : HarmonicField) (h : hf.sources = []) :
    (∀ r c, (penaltyMat hf).entry r c = 0) ∧
    constraintEntries hf.sources hf.constraints = [] ∧
    (∀ j, spVecAt (constraintEntries hf.sources hf.constraints) j = 0) := by
  have hiv : identifiersVec hf.sources = [] := by
    rw [h]
    rfl
  have hent : constraintEntries hf.sources hf.constraints = [] := by
    simp [constraintEntries, hiv]
  refine ⟨?_, hent, ?_⟩
  · intro r c
    show matFromTriplets (penaltyTriplets hf.sources hf.logAlpha) r c = 0
    simp [penaltyTriplets, hiv, matFromTriplets]
  · intro j
    rw [hent]
    rfl

/-- Concrete instantiation of the C8 theorem on a 3-vertex mesh with no
constraints. -/
theorem empty_constraints_zero_system_witness :
    (HarmonicField.mk 3 2 true SolvingMethodUserType.Auto 5 1 [] []).sources = [] ∧
    ((∀ r c, (penaltyMat (HarmonicField.mk 3 2 true SolvingMethodUserType.Auto 5 1 [] [])).entry r c = 0) ∧
    constraintEntries (HarmonicField.mk 3 2 true SolvingMethodUserType.Auto 5 1 [] []).sources
      (HarmonicField.mk 3 2 true SolvingMethodUserType.Auto 5 1 [] []).constraints = [] ∧
    (∀ j, spVecAt (constraintEntries
      (HarmonicField.mk 3 2 true SolvingMethodUserType.Auto 5 1 [] []).sources
      (HarmonicField.mk 3 2 true SolvingMethodUserType.Auto 5 1 [] []).constraints) j = 0)) :=
  ⟨rfl, empty_constraints_zero_system (HarmonicField.mk 3 2 true SolvingMethodUserType.Auto 5 1 [] []) rfl⟩

/-- Claim C9: execute is deterministic — two calls with field-wise identical
configuration (weighting mode, solving method, logAlpha, thread number),
identical mesh data, constraint ids and values, the same external
collaborators, and the same initial buffer produce identical results. -/
theorem execute_deterministic (eigenEnabled : Bool) (lapCotan lapCombin : SpMatT)
    (solver : Solver) (hf1 hf2 : HarmonicField) (out0 : ℕ → ℚ)
    (h1 : hf1.vertexNumber = hf2.vertexNumber)
    (h2 : hf1.edgeNumber = hf2.edgeNumber)
    (h3 : hf1.useCotanWeights = hf2.useCotanWeights)
    (h4 : hf1.solvingMethod = hf2.solvingMethod)
    (h5 : hf1.logAlpha = hf2.logAlpha)
    (h6 : hf1.threadNumber = hf2.threadNumber)
    (h7 : hf1.sources = hf2.sources)
    (h8 : hf1.constraints = hf2.constraints) :
    execute eigenEnabled lapCotan lapCombin solver hf1 out0 =
      execute eigenEnabled lapCotan lapCombin solver hf2 out0 := by
  have heq : hf1 = hf2 := by
    cases hf1
    cases hf2
    simp_all
  rw [heq]

/-- Concrete instantiation of the C9 theorem on a small configured field. -/
theorem execute_deterministic_witness :
    (HarmonicField.mk 3 3 true SolvingMethodUserType.Auto 5 1 [0] [2]).vertexNumber =
      (HarmonicField.mk 3 3 true SolvingMethodUserType.Auto 5 1 [0] [2]).vertexNumber ∧
    execute true (SpMatT.mk 3 3 (fun _ _ => 1)) (SpMatT.mk 3 3 (fun _ _ => 1))
        (fun _ _ _ _ => (0, fun _ => 0))
        (HarmonicField.mk 3 3 true SolvingMethodUserType.Auto 5 1 [0] [2]) (fun _ => 0) =
      execute true (SpMatT.mk 3 3 (fun _ _ => 1)) (SpMatT.mk 3 3 (fun _ _ => 1))
        (fun _ _ _ _ => (0, fun _ => 0))
        (HarmonicField.mk 3 3 true SolvingMethodUserType.Auto 5 1 [0] [2]) (fun _ => 0) :=
  ⟨rfl, execute_deterministic true (SpMatT.mk 3 3 (fun _ _ => 1))
    (SpMatT.mk 3 3 (fun _ _ => 1)) (fun _ _ _ _ => (0, fun _ => 0))
    (HarmonicField.mk 3 3 true SolvingMethodUserType.Auto 5 1 [0] [2])
    (HarmonicField.mk 3 3 true SolvingMethodUserType.Auto 5 1 [0] [2])
    (fun _ => 0) rfl rfl rfl rfl rfl rfl rfl rfl⟩

/-- Claim C10: with duplicated constraint ids, only the first k positions of
the value array matter, where k is the number of distinct ids (strictly below
constraintNumber): two value arrays agreeing on positions 0..k-1 yield the
same constraint vector, the same penalty matrix, and the same output field. -/
theorem duplicate_tail_values_unused (lapCotan lapCombin : SpMatT) (solver : Solver)
    (v e : ℕ) (w : Bool) (m : SolvingMethodUserType) (la : ℤ) (tn : ℕ)
    (ids : List ℤ) (sf1 sf2 : List ℚ) (out0 : ℕ → ℚ)
    (hdup : ¬ ids.Nodup)
    (hagree : ∀ j, j < (identifiersVec ids).length → sf1.getD j 0 = sf2.getD j 0) :
    (identifiersVec ids).length < ids.length ∧
    constraintEntries ids sf1 = constraintEntries ids sf2 ∧
    penaltyMat (HarmonicField.mk v e w m la tn ids sf1) =
      penaltyMat (HarmonicField.mk v e w m la tn ids sf2) ∧
    (executeE lapCotan lapCombin solver
        (HarmonicField.mk v e w m la tn ids sf1) out0).output =
      (executeE lapCotan lapCombin solver
        (HarmonicField.mk v e w m la tn ids sf2) out0).output := by
  have hent : constraintEntries ids sf1 = constraintEntries ids sf2 := by
    rw [constraintEntries_eq_map, constraintEntries_eq_map]
    apply List.map_congr_left
    intro k hk
    rw [hagree k (List.mem_range.mp hk)]
  have hsr : solverResult lapCotan lapCombin solver (HarmonicField.mk v e w m la tn ids sf1) =
      solverResult lapCotan lapCombin solver (HarmonicField.mk v e w m la tn ids sf2) := by
    simp only [solverResult]
    rw [hent]
    rfl
  refine ⟨length_identifiersVec_lt ids hdup, hent, rfl, ?_⟩
  show (fun i => if i < v then
      -((solverResult lapCotan lapCombin solver
          (HarmonicField.mk v e w m la tn ids sf1)).2 i) else out0 i) =
    (fun i => if i < v then
      -((solverResult lapCotan lapCombin solver
          (HarmonicField.mk v e w m la tn ids sf2)).2 i) else out0 i)
  rw [hsr]

/-- Concrete instantiation of the C10 theorem: ids = [1, 1] collapse to the
single distinct id 1, so the two value arrays [3, 5] and [3, 99], equal at
position 0 only, give identical results. -/
theorem duplicate_tail_values_unused_witness :
    ¬ ([1, 1] : List ℤ).Nodup ∧
    (∀ j, j < (identifiersVec [1, 1]).length →
      ([3, 5] : List ℚ).getD j 0 = ([3, 99] : List ℚ).getD j 0) ∧
    ((identifiersVec [1, 1]).length < ([1, 1] : List ℤ).length ∧
    constraintEntries [1, 1] [3, 5] = constraintEntries [1, 1] [3, 99] ∧
    penaltyMat (HarmonicField.mk 2 1 true SolvingMethodUserType.Auto 5 1 [1, 1] [3, 5]) =
      penaltyMat (HarmonicField.mk 2 1 true SolvingMethodUserType.Auto 5 1 [1, 1] [3, 99]) ∧
    (executeE (SpMatT.mk 2 2 (fun _ _ => 1)) (SpMatT.mk 2 2 (fun _ _ => 1))
        (fun _ _ _ c => (0, fun i => spVecAt c i))
        (HarmonicField.mk 2 1 true SolvingMethodUserType.Auto 5 1 [1, 1] [3, 5])
        (fun _ => 0)).output =
      (executeE (SpMatT.mk 2 2 (fun _ _ => 1)) (SpMatT.mk 2 2 (fun _ _ => 1))
        (fun _ _ _ c => (0, fun i => spVecAt c i))
        (HarmonicField.mk 2 1 true SolvingMethodUserType.Auto 5 1 [1, 1] [3, 99])
        (fun _ => 0)).output) :=
  ⟨by decide, by decide,
    duplicate_tail_values_unused (SpMatT.mk 2 2 (fun _ _ => 1))
      (SpMatT.mk 2 2 (fun _ _ => 1)) (fun _ _ _ c => (0, fun i => spVecAt c i))
      2 1 true SolvingMethodUserType.Auto 5 1 [1, 1] [3, 5] [3, 99] (fun _ => 0)
      (by decide) (by decide)⟩

end TTK
